import Mathlib

/-
Verification of the model-asset resolution utilities of the cnstd
repository (`memegle_cnstd/utils.py`), as a shallow embedding.

The filesystem is modelled as an explicit state: an association list of
regular files (path to contents) plus a list of existing directories.
The network is an oracle mapping a URL to a download outcome.  Archive
contents are modelled abstractly: a file on disk either is a well-formed
zip archive (a list of entry-name/content pairs) or raw bytes that the
zip reader rejects.  Paths follow POSIX semantics (`os.path` on a
non-Windows host), translated from CPython's `posixpath` module; the
Windows join used by `data_dir_default` is translated from `ntpath.join`
for a relative, drive-less second argument, which is the only way the
source calls it.
-/

/-- Index of the first slash in a character list, or its length when none. -/
def idxOfSlash : List Char → Nat
  | [] => 0
  | c :: cs => if c = '/' then 0 else 1 + idxOfSlash cs

/-- Strip (all) trailing occurrences of a character, as Python's rstrip. -/
def rstripChar (c : Char) (l : List Char) : List Char :=
  (l.reverse.dropWhile (fun x => x == c)).reverse

/-- Position just after the last slash, as Python's p.rfind plus one. -/
def splitIdx (l : List Char) : Nat :=
  l.length - idxOfSlash l.reverse

/-- Translation of posixpath.expanduser with environment HOME set to
`home` and no named-user database (a tilde-user path is returned
unchanged, as CPython does when the user is unknown). -/
def expanduser (home : String) (p : String) : String :=
  match p.toList with
  | [] => p
  | c :: rest =>
    if c = '~' then
      let i := 1 + idxOfSlash rest
      if i = 1 then
        let userhome := String.mk (rstripChar '/' home.toList)
        let r := userhome ++ String.mk ((c :: rest).drop i)
        if r = "" then "/" else r
      else p
    else p

/-- Translation of posixpath.dirname. -/
def dirname (p : String) : String :=
  let l := p.toList
  let head := l.take (splitIdx l)
  if head.isEmpty then ""
  else if head.all (fun x => x == '/') then String.mk head
  else String.mk (rstripChar '/' head)

/-- Translation of posixpath.basename. -/
def basename (p : String) : String :=
  String.mk (p.toList.drop (splitIdx p.toList))

/-- Last character of a string, if any. -/
def lastChar? (p : String) : Option Char :=
  p.toList.getLast?

/-- First character of a string, if any. -/
def headChar? (p : String) : Option Char :=
  p.toList.head?

/-- Decides whether a POSIX path is absolute. -/
def isAbs (p : String) : Bool :=
  headChar? p == some '/'

/-- Decides whether a path begins with a tilde. -/
def hasTilde (p : String) : Bool :=
  headChar? p == some '~'

/-- Translation of posixpath.join for two arguments. -/
def joinPath (a b : String) : String :=
  if headChar? b = some '/' then b
  else if a = "" ∨ lastChar? a = some '/' then a ++ b
  else a ++ "/" ++ b

/-- Translation of ntpath.join for a relative, drive-less second
argument, the only shape `data_dir_default` uses on Windows. -/
def ntJoin (a b : String) : String :=
  if a = "" then b
  else if lastChar? a = some '\\' ∨ lastChar? a = some '/' ∨ lastChar? a = some ':' then a ++ b
  else a ++ "\\" ++ b

/-- Contents of a regular file: a well-formed zip archive given by its
entries; an archive that opens successfully but whose member-by-member
extraction raises midway (a bad member CRC, a disk error) after the
listed entries were already written; or raw bytes that the zip reader
rejects at open (this also covers the empty file, which zipfile rejects
as BadZipFile). -/
inductive FileData where
  | zipData (entries : List (String × String))
  | zipTrunc (entries : List (String × String))
  | raw (bytes : String)
deriving DecidableEq, Repr

/-- Filesystem state: regular files with contents, and directories. -/
structure FS where
  files : List (String × FileData)
  dirs : List String
deriving DecidableEq, Repr

/-- Decides whether a regular file exists at the path. -/
def FS.isFile (fs : FS) (p : String) : Bool :=
  fs.files.any (fun f => f.1 == p)

/-- Decides whether a directory exists at the path. -/
def FS.isDir (fs : FS) (p : String) : Bool :=
  fs.dirs.contains p

/-- Translation of os.path.exists: a file or a directory is present. -/
def FS.pathExists (fs : FS) (p : String) : Bool :=
  fs.isFile p || fs.isDir p

/-- Contents of the regular file at a path, if one exists. -/
def FS.readFile (fs : FS) (p : String) : Option FileData :=
  (fs.files.find? (fun f => f.1 == p)).map (fun f => f.2)

/-- Write (create or overwrite) a regular file. -/
def FS.writeFile (fs : FS) (p : String) (d : FileData) : FS :=
  { fs with files := (p, d) :: fs.files.filter (fun f => f.1 != p) }

/-- Remove a regular file. -/
def FS.removeFile (fs : FS) (p : String) : FS :=
  { fs with files := fs.files.filter (fun f => f.1 != p) }

/-- Well-formedness: no path is simultaneously a file and a directory. -/
def FS.wf (fs : FS) : Bool :=
  fs.files.all (fun f => !(fs.dirs.contains f.1))

/-- Translation of os.makedirs with exist_ok set: succeeds silently when
the directory exists, fails on an empty path (FileNotFoundError in
CPython) and when a regular file occupies the path.  Intermediate
directory creation is abstracted: only the target directory is
recorded. -/
def FS.makedirs (fs : FS) (p : String) : Option FS :=
  if p = "" then none
  else if fs.isDir p then some fs
  else if fs.isFile p then none
  else some { fs with dirs := p :: fs.dirs }

/-- Errors get_model_file can raise, named after the Python exceptions:
NotImplementedError for a registry miss, a download failure from the
fetch primitive, zipfile.BadZipFile for an archive rejected at open, an
error raised midway through extractall (bad member CRC, disk full), and
an OS level file-access error. -/
inductive ResolverError where
  | notImplementedError (modelName : String)
  | downloadError
  | badZipFile
  | extractionError
  | fileAccessError
deriving DecidableEq, Repr

/-- Outcome of the network oracle for one URL: a successful fetch of
some bytes, a clean failure leaving nothing on disk, or a failure that
leaves partially written bytes at the destination. -/
inductive DownloadResult where
  | ok (data : FileData)
  | failClean
  | failPart (written : FileData)
deriving DecidableEq, Repr

/-- Observable events of one resolver run. -/
inductive Event where
  | downloadAttempt (url : String) (dest : String)
  | extracted (destDir : String) (entries : List (String × String))
deriving DecidableEq, Repr

/-- Decides whether an event is a network download attempt. -/
def isDownloadEvent : Event → Bool
  | .downloadAttempt _ _ => true
  | _ => false

/-- Result of a run: a returned path or a raised error. -/
inductive Outcome where
  | ok (path : String)
  | err (e : ResolverError)
deriving DecidableEq, Repr

/-- Full result of a resolver run: final filesystem, event trace,
and outcome. -/
structure RunResult where
  fs : FS
  trace : List Event
  outcome : Outcome
deriving DecidableEq, Repr

/-- Translation of zf.extractall(par_dir): write every entry of the
archive under the destination directory, later entries overwriting
earlier ones at the same path. -/
def extractAll (fs : FS) (destDir : String) (entries : List (String × String)) : FS :=
  entries.foldl (fun acc e => acc.writeFile (joinPath destDir e.1) (FileData.raw e.2)) fs

/-- Translation of the tail of get_model_file: open the zip at
`zip_file_path` (raising BadZipFile on raw bytes and an access error
when no regular file is there), extract its members into `par_dir`,
delete the archive, and return `model_dir`.  A zipTrunc archive
reproduces zipfile's per-member failure path: the listed entries are
written and then extraction raises, so the archive is not deleted and
the parent directory is left partially populated. -/
def extractPhase (fs : FS) (tr : List Event) (model_dir par_dir zip_file_path : String) :
    RunResult :=
  match fs.readFile zip_file_path with
  | none => ⟨fs, tr, .err .fileAccessError⟩
  | some (.raw _) => ⟨fs, tr, .err .badZipFile⟩
  | some (.zipTrunc entries) => ⟨extractAll fs par_dir entries, tr, .err .extractionError⟩
  | some (.zipData entries) =>
    let fs1 := extractAll fs par_dir entries
    let fs2 := fs1.removeFile zip_file_path
    ⟨fs2, tr ++ [Event.extracted par_dir entries], .ok model_dir⟩

/-- Translation of get_model_file.  The registry stands for
AVAILABLE_MODELS: an association of model names to (version, url)
pairs, of which the code uses index 1, the url.  The oracle `net`
stands for mxnet's download primitive called with overwrite=True. -/
def get_model_file (registry : List (String × (String × String)))
    (net : String → DownloadResult) (home : String) (model_dir_arg : String)
    (fs0 : FS) : RunResult :=
  let model_dir := expanduser home model_dir_arg
  let par_dir := dirname model_dir
  match fs0.makedirs par_dir with
  | none => ⟨fs0, [], .err .fileAccessError⟩
  | some fs1 =>
    let zip_file_path := model_dir ++ ".zip"
    if fs1.pathExists zip_file_path then
      extractPhase fs1 [] model_dir par_dir zip_file_path
    else
      let model_name := basename model_dir
      match registry.find? (fun e => e.1 == model_name) with
      | none => ⟨fs1, [], .err (.notImplementedError model_name)⟩
      | some entry =>
        let url := entry.2.2
        match net url with
        | .ok d =>
          extractPhase (fs1.writeFile zip_file_path d)
            [Event.downloadAttempt url zip_file_path] model_dir par_dir zip_file_path
        | .failClean =>
          ⟨fs1, [Event.downloadAttempt url zip_file_path], .err .downloadError⟩
        | .failPart d =>
          ⟨fs1.writeFile zip_file_path d, [Event.downloadAttempt url zip_file_path],
            .err .downloadError⟩

/-- Process environment and platform facts read by data_dir. -/
structure Env where
  system : String
  appdata : String
  home : String
  cnocrHome : Option String
deriving DecidableEq, Repr

/-- Translation of data_dir_default: the APPDATA cnstd directory on
Windows, else the .cnstd dotfile directory under the expanded home. -/
def data_dir_default (env : Env) : String :=
  if env.system = "Windows" then ntJoin env.appdata "cnstd"
  else joinPath (expanduser env.home "~") ".cnstd"

/-- Translation of data_dir: os.getenv of CNOCR_HOME with the platform
default as fallback. -/
def data_dir (env : Env) : String :=
  match env.cnocrHome with
  | some v => v
  | none => data_dir_default env

/-- Lines of a text file as Python file iteration yields them: each line
keeps its terminating newline; a final fragment without a newline is a
line of its own; a file ending in a newline has no extra empty line. -/
def linesAux (acc : List Char) : List Char → List (List Char)
  | [] => if acc.isEmpty then [] else [acc.reverse]
  | c :: cs =>
    if c = '\n' then (acc.reverse ++ ['\n']) :: linesAux [] cs
    else linesAux (c :: acc) cs

/-- Lines of a file given by its full decoded content. -/
def pythonLines (s : String) : List String :=
  (linesAux [] s.toList).map String.mk

/-- Translation of line.rstrip applied to a newline character. -/
def rstripNl (s : String) : String :=
  String.mk (rstripChar '\n' s.toList)

/-- Lines of the charset file with their trailing newlines stripped, as
the loop of read_charset produces them. -/
def strippedLines (content : String) : List String :=
  (pythonLines content).map rstripNl

/-- Replace the first entry equal to the space marker, as the
index-and-assign with the ValueError fallthrough of read_charset does
(no occurrence leaves the list unchanged). -/
def replaceFirstSpace : List (Option String) → List (Option String)
  | [] => []
  | a :: t =>
    if a == some "<space>" then (some " ") :: t
    else a :: replaceFirstSpace t

/-- Single binding update of a Python dict modelled as an association
list: the new binding shadows any earlier binding of the same key. -/
def dictInsert (d : List (Option String × Nat)) (k : Option String) (v : Nat) :
    List (Option String × Nat) :=
  (k, v) :: d.filter (fun kv => kv.1 != k)

/-- Lookup in the association-list model of a Python dict. -/
def dictLookup (d : List (Option String × Nat)) (k : Option String) : Option Nat :=
  (d.find? (fun kv => kv.1 == k)).map (fun kv => kv.2)

/-- Translation of the dict comprehension of read_charset: bind every
element of the list to its index, later (larger) indices shadowing
earlier ones for duplicate elements. -/
def buildDict (l : List (Option String)) : List (Option String × Nat) :=
  l.enum.foldl (fun d kv => dictInsert d kv.2 kv.1) []

/-- Translation of read_charset over the decoded file content: a None
sentinel followed by the stripped lines, with the first space marker
replaced, paired with the inverse dict. -/
def read_charset (content : String) :
    List (Option String) × List (Option String × Nat) :=
  let alphabet := replaceFirstSpace
    ((none : Option String) :: (strippedLines content).map some)
  (alphabet, buildDict alphabet)

/-- Index of the first occurrence of a string in a list, as Python's
list.index restricted to the elements present. -/
def firstIdxOfStr (x : String) : List String → Option Nat
  | [] => none
  | a :: t => if a == x then some 0 else (firstIdxOfStr x t).map (fun n => n + 1)

/-- Largest index at which a value occurs in a list, if it occurs. -/
def lastIdxOf (k : Option String) : List (Option String) → Option Nat
  | [] => none
  | a :: t =>
    match lastIdxOf k t with
    | some j => some (j + 1)
    | none => if a == k then some 0 else none

/-- Dynamic Python value, at the granularity check_context inspects:
a str, a list, an mx.Context instance, or anything else. -/
inductive PyVal where
  | str (s : String)
  | list (l : List PyVal)
  | ctx
  | other
deriving Repr

/-- Translation of isinstance(x, mx.Context) on the modelled values. -/
def isContextInstance : PyVal → Bool
  | .ctx => true
  | _ => false

/-- Translation of str.lower, character-wise (ASCII case folding). -/
def pyLower (s : String) : String :=
  String.mk (s.toList.map Char.toLower)

/-- Translation of check_context. -/
def check_context : PyVal → Bool
  | .str s => pyLower s == "gpu" || pyLower s == "cpu"
  | .list l => if l.length < 1 then false else l.all isContextInstance
  | .ctx => true
  | .other => false

theorem any_key_filter_ne (l : List (String × FileData)) (p q : String) :
    (l.filter (fun f => f.1 != p)).any (fun f => f.1 == q) =
      if q = p then false else l.any (fun f => f.1 == q) := by
  rw [List.any_filter]
  by_cases h : q = p
  · subst h
    rw [if_pos rfl, List.any_eq_false]
    intro x _
    by_cases hx : x.1 = q <;> simp [hx]
  · rw [if_neg h]
    congr 1
    funext f
    by_cases hf : f.1 = q
    · have hfp : f.1 ≠ p := by rw [hf]; exact h
      simp [hf, hfp]
      exact h
    · simp [hf]

theorem isFile_writeFile (fs : FS) (p q : String) (d : FileData) :
    (fs.writeFile p d).isFile q = (p == q || fs.isFile q) := by
  show ((p, d) :: fs.files.filter (fun f => f.1 != p)).any (fun f => f.1 == q) = _
  rw [List.any_cons, any_key_filter_ne]
  by_cases h : q = p
  · subst h; simp
  · have : p ≠ q := fun hpq => h hpq.symm
    simp [h, this, FS.isFile]

theorem isFile_removeFile (fs : FS) (p q : String) :
    (fs.removeFile p).isFile q = if q = p then false else fs.isFile q := by
  show (fs.files.filter (fun f => f.1 != p)).any (fun f => f.1 == q) = _
  rw [any_key_filter_ne]
  rfl

theorem readFile_writeFile_self (fs : FS) (p : String) (d : FileData) :
    (fs.writeFile p d).readFile p = some d := by
  simp [FS.readFile, FS.writeFile, List.find?_cons]

theorem writeFile_dirs (fs : FS) (p : String) (d : FileData) :
    (fs.writeFile p d).dirs = fs.dirs := rfl

theorem removeFile_dirs (fs : FS) (p : String) :
    (fs.removeFile p).dirs = fs.dirs := rfl

theorem writeFile_files_congr (fs fs' : FS) (p : String) (d : FileData)
    (h : fs.files = fs'.files) :
    (fs.writeFile p d).files = (fs'.writeFile p d).files := by
  simp [FS.writeFile, h]

theorem isFile_congr (fs fs' : FS) (h : fs.files = fs'.files) (p : String) :
    fs.isFile p = fs'.isFile p := by
  unfold FS.isFile
  rw [h]

theorem extractAll_dirs (dd : String) (es : List (String × String)) (fs : FS) :
    (extractAll fs dd es).dirs = fs.dirs := by
  induction es generalizing fs with
  | nil => rfl
  | cons e t ih => simpa [extractAll] using ih (fs.writeFile (joinPath dd e.1) (FileData.raw e.2))

theorem extractAll_isFile_mono (dd : String) (es : List (String × String)) (fs : FS)
    (q : String) (h : fs.isFile q = true) :
    (extractAll fs dd es).isFile q = true := by
  induction es generalizing fs with
  | nil => exact h
  | cons e t ih =>
    show (extractAll (fs.writeFile (joinPath dd e.1) (FileData.raw e.2)) dd t).isFile q = true
    exact ih _ (by rw [isFile_writeFile, h, Bool.or_true])

theorem extractAll_isFile_mem (dd : String) (es : List (String × String)) (fs : FS)
    (n : String) (c : String) (h : (n, c) ∈ es) :
    (extractAll fs dd es).isFile (joinPath dd n) = true := by
  induction es generalizing fs with
  | nil => cases h
  | cons e t ih =>
    show (extractAll (fs.writeFile (joinPath dd e.1) (FileData.raw e.2)) dd t).isFile _ = true
    rcases List.mem_cons.mp h with he | ht
    · subst he
      exact extractAll_isFile_mono _ _ _ _ (by rw [isFile_writeFile]; simp)
    · exact ih _ ht

theorem makedirs_inv (fs fs1 : FS) (p : String) (h : fs.makedirs p = some fs1) :
    p ≠ "" ∧ fs1.files = fs.files ∧ fs1.isDir p = true ∧
      (fs1.dirs = fs.dirs ∨ fs1.dirs = p :: fs.dirs) := by
  unfold FS.makedirs at h
  split at h
  · cases h
  · next hne =>
    split at h
    · next hdir => cases h; exact ⟨hne, rfl, hdir, Or.inl rfl⟩
    · next hdir =>
      split at h
      · cases h
      · cases h
        refine ⟨hne, rfl, ?_, Or.inr rfl⟩
        show List.contains _ _ = true
        rw [List.contains_cons]
        simp

theorem makedirs_of_isDir (fs : FS) (p : String) (hne : p ≠ "")
    (hd : fs.isDir p = true) : fs.makedirs p = some fs := by
  unfold FS.makedirs
  rw [if_neg hne, if_pos hd]

theorem wf_not_dir_of_isFile (fs : FS) (p : String) (hwf : fs.wf = true)
    (hf : fs.isFile p = true) : fs.isDir p = false := by
  rcases List.any_eq_true.mp hf with ⟨f, hmem, hfp⟩
  have hall := List.all_eq_true.mp hwf f hmem
  have : f.1 = p := by simpa using hfp
  subst this
  simpa [FS.isDir] using hall

theorem isFile_of_readFile (fs : FS) (p : String) (d : FileData)
    (h : fs.readFile p = some d) : fs.isFile p = true := by
  unfold FS.readFile at h
  rcases Option.map_eq_some'.mp h with ⟨f, hf, _⟩
  have hmem := List.mem_of_find?_eq_some hf
  have hpred := List.find?_some hf
  exact List.any_eq_true.mpr ⟨f, hmem, hpred⟩

theorem length_dirname_le (p : String) : (dirname p).length ≤ p.length := by
  have hplen : p.length = p.toList.length := rfl
  have htake : (p.toList.take (splitIdx p.toList)).length ≤ p.toList.length := by
    rw [List.length_take]; omega
  have hstrip : (rstripChar '/' (p.toList.take (splitIdx p.toList))).length ≤
      (p.toList.take (splitIdx p.toList)).length := by
    unfold rstripChar
    rw [List.length_reverse]
    calc (List.dropWhile (fun x => x == '/') (p.toList.take (splitIdx p.toList)).reverse).length
        ≤ (p.toList.take (splitIdx p.toList)).reverse.length :=
          (List.dropWhile_suffix _).length_le
      _ = (p.toList.take (splitIdx p.toList)).length := List.length_reverse _
  unfold dirname
  dsimp only
  split
  · simp
  · split
    · show (p.toList.take (splitIdx p.toList)).length ≤ p.length
      rw [hplen]; exact htake
    · show (rstripChar '/' (p.toList.take (splitIdx p.toList))).length ≤ p.length
      rw [hplen]; exact le_trans hstrip htake

theorem zip_ne_dirname (m : String) : m ++ ".zip" ≠ dirname m := by
  intro h
  have h1 := length_dirname_le m
  rw [← h, String.length_append] at h1
  have : (".zip" : String).length = 4 := rfl
  omega

theorem extractPhase_no_download (fs : FS) (tr : List Event) (m p z : String)
    (h : tr.all (fun e => !(isDownloadEvent e)) = true) :
    (extractPhase fs tr m p z).trace.all (fun e => !(isDownloadEvent e)) = true := by
  unfold extractPhase
  cases hread : fs.readFile z with
  | none => exact h
  | some fd =>
    cases fd with
    | raw b => exact h
    | zipTrunc es => exact h
    | zipData es =>
      dsimp only
      rw [List.all_append, h]
      rfl

theorem extractPhase_ok_inv (fs : FS) (tr : List Event) (m p z r : String)
    (h : (extractPhase fs tr m p z).outcome = .ok r) :
    r = m ∧ ∃ es, fs.readFile z = some (.zipData es) ∧
      extractPhase fs tr m p z =
        ⟨(extractAll fs p es).removeFile z, tr ++ [Event.extracted p es], .ok m⟩ := by
  unfold extractPhase at h ⊢
  cases hread : fs.readFile z with
  | none => rw [hread] at h; dsimp only at h; exact Outcome.noConfusion h
  | some fd =>
    cases fd with
    | raw b => rw [hread] at h; dsimp only at h; exact Outcome.noConfusion h
    | zipTrunc es => rw [hread] at h; dsimp only at h; exact Outcome.noConfusion h
    | zipData es =>
      rw [hread] at h
      dsimp only at h ⊢
      exact ⟨(Outcome.ok.inj h).symm, es, rfl, rfl⟩


theorem run_ok_inv (R : List (String × (String × String))) (N : String → DownloadResult)
    (home md r : String) (fs0 : FS) (rr : RunResult)
    (h : get_model_file R N home md fs0 = rr) (ho : rr.outcome = .ok r) :
    r = expanduser home md ∧
    ∃ fs1 fsPre es,
      fs0.makedirs (dirname (expanduser home md)) = some fs1 ∧
      ((fsPre = fs1 ∧ fs1.pathExists (expanduser home md ++ ".zip") = true ∧
          fs1.readFile (expanduser home md ++ ".zip") = some (FileData.zipData es)) ∨
        (∃ d, fs1.pathExists (expanduser home md ++ ".zip") = false ∧
          fsPre = fs1.writeFile (expanduser home md ++ ".zip") d)) ∧
      rr.fs = (extractAll fsPre (dirname (expanduser home md)) es).removeFile
        (expanduser home md ++ ".zip") ∧
      Event.extracted (dirname (expanduser home md)) es ∈ rr.trace := by
  subst h
  unfold get_model_file at ho ⊢
  dsimp only at ho ⊢
  cases hmk : fs0.makedirs (dirname (expanduser home md)) with
  | none => rw [hmk] at ho; dsimp only at ho; exact Outcome.noConfusion ho
  | some fs1 =>
    rw [hmk] at ho
    dsimp only at ho
    dsimp only
    by_cases hz : fs1.pathExists (expanduser home md ++ ".zip") = true
    · rw [if_pos hz] at ho ⊢
      obtain ⟨hr, es, hread, heq⟩ := extractPhase_ok_inv _ _ _ _ _ _ ho
      refine ⟨hr, fs1, fs1, es, rfl, Or.inl ⟨rfl, hz, hread⟩, ?_, ?_⟩
      · rw [heq]
      · rw [heq]; simp
    · rw [if_neg hz] at ho ⊢
      cases hfind : List.find? (fun en => en.1 == basename (expanduser home md)) R with
      | none => rw [hfind] at ho; dsimp only at ho; exact Outcome.noConfusion ho
      | some entry =>
        rw [hfind] at ho
        dsimp only at ho
        dsimp only
        cases hnet : N entry.2.2 with
        | ok d =>
          rw [hnet] at ho
          dsimp only at ho
          dsimp only
          obtain ⟨hr, es, hread, heq⟩ := extractPhase_ok_inv _ _ _ _ _ _ ho
          refine ⟨hr, fs1, fs1.writeFile (expanduser home md ++ ".zip") d, es, rfl,
            Or.inr ⟨d, by simpa using hz, rfl⟩, ?_, ?_⟩
          · rw [heq]
          · rw [heq]; simp
        | failClean => rw [hnet] at ho; dsimp only at ho; exact Outcome.noConfusion ho
        | failPart d => rw [hnet] at ho; dsimp only at ho; exact Outcome.noConfusion ho

theorem run_err_inv (R : List (String × (String × String))) (N : String → DownloadResult)
    (home md : String) (fs0 : FS) (rr : RunResult) (e : ResolverError)
    (h : get_model_file R N home md fs0 = rr) (ho : rr.outcome = .err e) :
    (∀ p, fs0.isFile p = true → rr.fs.isFile p = true) ∧
    ((e = .badZipFile ∨ e = .extractionError) →
      rr.fs.isFile (expanduser home md ++ ".zip") = true) ∧
    (e = .downloadError →
      (rr.fs.files = fs0.files ∨
        ∃ d, rr.fs.files = ((fs0.writeFile (expanduser home md ++ ".zip") d)).files)) := by
  subst h
  unfold get_model_file at ho ⊢
  dsimp only at ho ⊢
  cases hmk : fs0.makedirs (dirname (expanduser home md)) with
  | none =>
    rw [hmk] at ho
    dsimp only at ho
    obtain rfl : ResolverError.fileAccessError = e := Outcome.err.inj ho
    refine ⟨fun p hp => hp, ?_, ?_⟩
    · intro hh
      rcases hh with hh | hh <;> exact ResolverError.noConfusion hh
    · intro hh
      exact ResolverError.noConfusion hh
  | some fs1 =>
    have hf1 : fs1.files = fs0.files := (makedirs_inv _ _ _ hmk).2.1
    rw [hmk] at ho
    dsimp only at ho
    dsimp only
    by_cases hz : fs1.pathExists (expanduser home md ++ ".zip") = true
    · rw [if_pos hz] at ho ⊢
      unfold extractPhase at ho ⊢
      cases hread : fs1.readFile (expanduser home md ++ ".zip") with
      | none =>
        rw [hread] at ho
        dsimp only at ho
        dsimp only
        obtain rfl : ResolverError.fileAccessError = e := Outcome.err.inj ho
        refine ⟨?_, ?_, ?_⟩
        · intro p hp
          rw [isFile_congr fs1 fs0 hf1]
          exact hp
        · intro hh
          rcases hh with hh | hh <;> exact ResolverError.noConfusion hh
        · intro hh
          exact ResolverError.noConfusion hh
      | some fd =>
        cases fd with
        | raw b =>
          rw [hread] at ho
          dsimp only at ho
          dsimp only
          obtain rfl : ResolverError.badZipFile = e := Outcome.err.inj ho
          refine ⟨?_, ?_, ?_⟩
          · intro p hp
            rw [isFile_congr fs1 fs0 hf1]
            exact hp
          · intro hh
            exact isFile_of_readFile _ _ _ hread
          · intro hh
            exact ResolverError.noConfusion hh
        | zipTrunc es =>
          rw [hread] at ho
          dsimp only at ho
          dsimp only
          obtain rfl : ResolverError.extractionError = e := Outcome.err.inj ho
          refine ⟨?_, ?_, ?_⟩
          · intro p hp
            exact extractAll_isFile_mono _ _ _ _
              (by rw [isFile_congr fs1 fs0 hf1]; exact hp)
          · intro hh
            exact extractAll_isFile_mono _ _ _ _ (isFile_of_readFile _ _ _ hread)
          · intro hh
            exact ResolverError.noConfusion hh
        | zipData es =>
          rw [hread] at ho
          dsimp only at ho
          exact Outcome.noConfusion ho
    · rw [if_neg hz] at ho ⊢
      cases hfind : List.find? (fun en => en.1 == basename (expanduser home md)) R with
      | none =>
        rw [hfind] at ho
        dsimp only at ho
        dsimp only
        obtain rfl : ResolverError.notImplementedError (basename (expanduser home md)) = e :=
          Outcome.err.inj ho
        refine ⟨?_, ?_, ?_⟩
        · intro p hp
          rw [isFile_congr fs1 fs0 hf1]
          exact hp
        · intro hh
          rcases hh with hh | hh <;> exact ResolverError.noConfusion hh
        · intro hh
          exact ResolverError.noConfusion hh
      | some entry =>
        rw [hfind] at ho
        dsimp only at ho
        dsimp only
        cases hnet : N entry.2.2 with
        | failClean =>
          rw [hnet] at ho
          dsimp only at ho
          dsimp only
          obtain rfl : ResolverError.downloadError = e := Outcome.err.inj ho
          refine ⟨?_, ?_, ?_⟩
          · intro p hp
            rw [isFile_congr fs1 fs0 hf1]
            exact hp
          · intro hh
            rcases hh with hh | hh <;> exact ResolverError.noConfusion hh
          · intro hh
            exact Or.inl hf1
        | failPart d =>
          rw [hnet] at ho
          dsimp only at ho
          dsimp only
          obtain rfl : ResolverError.downloadError = e := Outcome.err.inj ho
          refine ⟨?_, ?_, ?_⟩
          · intro p hp
            rw [isFile_writeFile, isFile_congr fs1 fs0 hf1, hp, Bool.or_true]
          · intro hh
            rcases hh with hh | hh <;> exact ResolverError.noConfusion hh
          · intro hh
            exact Or.inr ⟨d, writeFile_files_congr _ _ _ _ hf1⟩
        | ok d =>
          rw [hnet] at ho
          dsimp only at ho
          dsimp only
          unfold extractPhase at ho ⊢
          rw [readFile_writeFile_self] at ho ⊢
          cases d with
          | raw b =>
            dsimp only at ho
            dsimp only
            obtain rfl : ResolverError.badZipFile = e := Outcome.err.inj ho
            refine ⟨?_, ?_, ?_⟩
            · intro p hp
              rw [isFile_writeFile, isFile_congr fs1 fs0 hf1, hp, Bool.or_true]
            · intro hh
              rw [isFile_writeFile]
              simp
            · intro hh
              exact ResolverError.noConfusion hh
          | zipTrunc es =>
            dsimp only at ho
            dsimp only
            obtain rfl : ResolverError.extractionError = e := Outcome.err.inj ho
            refine ⟨?_, ?_, ?_⟩
            · intro p hp
              apply extractAll_isFile_mono
              rw [isFile_writeFile, isFile_congr fs1 fs0 hf1, hp, Bool.or_true]
            · intro hh
              apply extractAll_isFile_mono
              rw [isFile_writeFile]
              simp
            · intro hh
              exact ResolverError.noConfusion hh
          | zipData es =>
            dsimp only at ho
            exact Outcome.noConfusion ho

theorem length_replaceFirstSpace (l : List (Option String)) :
    (replaceFirstSpace l).length = l.length := by
  induction l with
  | nil => rfl
  | cons a t ih =>
    unfold replaceFirstSpace
    split <;> simp [ih]

theorem replaceFirstSpace_cons_none (l : List (Option String)) :
    replaceFirstSpace (none :: l) = none :: replaceFirstSpace l := rfl

theorem get?_replaceFirstSpace_map (l : List String) (i : Nat) :
    (replaceFirstSpace (l.map some))[i]? =
      (if firstIdxOfStr "<space>" l = some i then some (some " ")
       else (l[i]?).map some) := by
  induction l generalizing i with
  | nil => simp [replaceFirstSpace, firstIdxOfStr]
  | cons a t ih =>
    by_cases ha : a = "<space>"
    · subst ha
      cases i with
      | zero => simp [replaceFirstSpace, firstIdxOfStr]
      | succ n => simp [replaceFirstSpace, firstIdxOfStr]
    · cases i with
      | zero => simp [replaceFirstSpace, firstIdxOfStr, ha]
      | succ n => simp [replaceFirstSpace, firstIdxOfStr, ha, ih]

theorem find?_filter_ne (d : List (Option String × Nat)) (k k' : Option String)
    (h : k' ≠ k) :
    (d.filter (fun kv => kv.1 != k)).find? (fun kv => kv.1 == k') =
      d.find? (fun kv => kv.1 == k') := by
  induction d with
  | nil => rfl
  | cons a t ih =>
    rw [List.filter_cons]
    by_cases ha : a.1 = k
    · have h1 : (a.1 != k) = false := by simp [ha]
      have h2 : (a.1 == k') = false := by
        simp only [beq_eq_false_iff_ne, ne_eq, ha]
        exact fun hh => h hh.symm
      rw [h1, if_neg (by simp), List.find?_cons, h2, ih]
    · have h1 : (a.1 != k) = true := by simp [ha]
      rw [h1, if_pos rfl, List.find?_cons, List.find?_cons]
      cases hpa : (a.1 == k') with
      | true => rfl
      | false => exact ih

theorem dictLookup_dictInsert (d : List (Option String × Nat)) (k k' : Option String)
    (v : Nat) :
    dictLookup (dictInsert d k v) k' = if k' = k then some v else dictLookup d k' := by
  unfold dictLookup dictInsert
  rw [List.find?_cons]
  by_cases h : k' = k
  · subst h; simp
  · have hke : (k == k') = false := by
      simp only [beq_eq_false_iff_ne, ne_eq]
      exact fun hh => h hh.symm
    rw [hke, if_neg h]
    show ((d.filter (fun kv => kv.1 != k)).find? (fun kv => kv.1 == k')).map _ = _
    rw [find?_filter_ne _ _ _ h]

theorem lastIdxOf_cons (k a : Option String) (t : List (Option String)) :
    lastIdxOf k (a :: t) =
      (match lastIdxOf k t with
       | some j => some (j + 1)
       | none => if a == k then some 0 else none) := rfl

theorem buildDict_lookup_from (l : List (Option String)) (k : Option String) :
    ∀ (n : Nat) (d : List (Option String × Nat)),
      dictLookup ((List.enumFrom n l).foldl (fun d kv => dictInsert d kv.2 kv.1) d) k =
        (match lastIdxOf k l with
         | some j => some (j + n)
         | none => dictLookup d k) := by
  induction l with
  | nil => intro n d; rfl
  | cons a t ih =>
    intro n d
    rw [List.enumFrom_cons, List.foldl_cons, ih, lastIdxOf_cons]
    cases hl : lastIdxOf k t with
    | some j =>
      dsimp only
      exact congrArg some (by omega)
    | none =>
      dsimp only
      rw [dictLookup_dictInsert]
      by_cases hk : k = a
      · subst hk
        simp
      · have hak : (a == k) = false := by
          simp only [beq_eq_false_iff_ne, ne_eq]
          exact fun hh => hk hh.symm
        rw [if_neg hk, hak]
        rfl

theorem dictLookup_buildDict (l : List (Option String)) (k : Option String) :
    dictLookup (buildDict l) k = lastIdxOf k l := by
  unfold buildDict
  rw [show l.enum = List.enumFrom 0 l from rfl, buildDict_lookup_from l k 0 []]
  cases hl : lastIdxOf k l with
  | some j => simp
  | none => rfl

theorem pathExists_makedirs_ne (fs fs1 : FS) (p q : String)
    (hmk : fs.makedirs p = some fs1) (hne : q ≠ p) :
    fs1.pathExists q = fs.pathExists q := by
  obtain ⟨-, hfiles, -, hdirs⟩ := makedirs_inv _ _ _ hmk
  unfold FS.pathExists
  rw [isFile_congr _ _ hfiles]
  congr 1
  unfold FS.isDir
  rcases hdirs with h | h
  · rw [h]
  · rw [h, List.contains_cons]
    have hqp : (q == p) = false := by
      simp only [beq_eq_false_iff_ne, ne_eq]
      exact hne
    rw [hqp, Bool.false_or]

theorem extractPhase_trace_mem (fs : FS) (tr : List Event) (m p z : String)
    (e : Event) (h : e ∈ tr) : e ∈ (extractPhase fs tr m p z).trace := by
  unfold extractPhase
  cases fs.readFile z with
  | none => exact h
  | some fd =>
    cases fd with
    | raw b => exact h
    | zipTrunc es => exact h
    | zipData es => dsimp only; exact List.mem_append_left _ h

theorem rstripChar_pre (c : Char) (l : List Char) : rstripChar c l <+: l := by
  have h := List.dropWhile_suffix (l := l.reverse) (fun x => x == c)
  have h2 := List.reverse_prefix.mpr h
  rwa [List.reverse_reverse] at h2

theorem expanduser_of_no_tilde (home p : String) (h : hasTilde p = false) :
    expanduser home p = p := by
  unfold hasTilde headChar? at h
  unfold expanduser
  cases hl : p.toList with
  | nil => rfl
  | cons c rest =>
    rw [hl] at h
    simp only [List.head?_cons, beq_eq_false_iff_ne, ne_eq, Option.some.injEq] at h
    dsimp only
    rw [if_neg h]

theorem run_with_archive (R : List (String × (String × String)))
    (N : String → DownloadResult) (home md : String) (fs0 fs1 : FS)
    (hmk : fs0.makedirs (dirname (expanduser home md)) = some fs1)
    (hz : fs1.pathExists (expanduser home md ++ ".zip") = true) :
    get_model_file R N home md fs0 =
      extractPhase fs1 [] (expanduser home md) (dirname (expanduser home md))
        (expanduser home md ++ ".zip") := by
  unfold get_model_file
  dsimp only
  rw [hmk]
  dsimp only
  rw [if_pos hz]

theorem isContextInstance_eq_true (x : PyVal) :
    isContextInstance x = true ↔ x = PyVal.ctx := by
  cases x <;> simp [isContextInstance]

theorem head_append_abs (us rest : List Char)
    (hus : us = [] ∨ ∃ t, us = '/' :: t)
    (hrest : us = [] → ∃ t, rest = '/' :: t) :
    isAbs (String.mk (us ++ rest)) = true := by
  rcases hus with h | ⟨t, h⟩
  · subst h
    obtain ⟨t, ht⟩ := hrest rfl
    subst ht
    rfl
  · subst h
    rfl

theorem rstrip_home_shape (home : String) (hh : isAbs home = true) :
    rstripChar '/' home.toList = [] ∨ ∃ t, rstripChar '/' home.toList = '/' :: t := by
  cases he : rstripChar '/' home.toList with
  | nil => exact Or.inl rfl
  | cons c0 us =>
    right
    refine ⟨us, ?_⟩
    obtain ⟨u, hu⟩ := rstripChar_pre '/' home.toList
    rw [he] at hu
    have hhd : home.toList.head? = some '/' := by
      unfold isAbs headChar? at hh
      cases hl : home.toList with
      | nil => rw [hl] at hh; simp at hh
      | cons d r =>
        rw [hl] at hh
        simp only [List.head?_cons, beq_iff_eq, Option.some.injEq] at hh
        rw [hh]
        rfl
    have : c0 = '/' := by
      have h2 := congrArg List.head? hu
      simp only [List.head?_cons] at h2
      rw [hhd] at h2
      exact Option.some.inj h2.symm ▸ rfl
    rw [this]

theorem isAbs_expanduser (home p : String) (hh : isAbs home = true)
    (hp : p.toList.take 2 = ['~', '/'] ∨ p.toList = ['~']) :
    isAbs (expanduser home p) = true := by
  have hp2 : ∃ rest, p.toList = '~' :: rest ∧ (rest = [] ∨ ∃ r2, rest = '/' :: r2) := by
    rcases hp with h2 | h1
    · cases hl : p.toList with
      | nil => rw [hl] at h2; simp at h2
      | cons c r =>
        rw [hl] at h2
        cases r with
        | nil => simp at h2
        | cons c2 r2 =>
          simp only [List.take, List.cons.injEq] at h2
          obtain ⟨hc, hc2, -⟩ := h2
          exact ⟨c2 :: r2, by rw [hc], Or.inr ⟨r2, by rw [hc2]⟩⟩
    · exact ⟨[], h1, Or.inl rfl⟩
  obtain ⟨rest, hpl, hrest⟩ := hp2
  unfold expanduser
  rw [hpl]
  dsimp only
  rw [if_pos rfl]
  have hi : 1 + idxOfSlash rest = 1 := by
    rcases hrest with h | ⟨r2, h⟩ <;> subst h <;> simp [idxOfSlash]
  rw [hi, if_pos rfl]
  have hdrop : List.drop 1 ('~' :: rest) = rest := rfl
  rw [hdrop]
  have happ : (String.mk (rstripChar '/' home.toList) ++ String.mk rest) =
      String.mk (rstripChar '/' home.toList ++ rest) := rfl
  split
  · rfl
  · next hne =>
    rw [happ] at hne ⊢
    apply head_append_abs _ _ (rstrip_home_shape home hh)
    intro hus
    rcases hrest with h | ⟨r2, h⟩
    · exfalso
      apply hne
      rw [hus, h]
      rfl
    · exact ⟨r2, h⟩

/-- C2 (amended): archive presence, not target-directory presence, is
what suppresses network activity.  When the archive file is present at
the target .zip path at probe time, the run performs no download
attempt; when it is absent, a download attempt occurs whenever the
target's base name is a registry key (even if the target directory
already exists), and when the base name is not a registry key the call
fails with an empty event trace, so again with no network activity. -/
theorem network_activity_characterization (R : List (String × (String × String)))
    (N : String → DownloadResult) (home md : String) (fs0 fs1 : FS)
    (hmk : fs0.makedirs (dirname (expanduser home md)) = some fs1) :
    (fs1.pathExists (expanduser home md ++ ".zip") = true →
      (get_model_file R N home md fs0).trace.all (fun e => !(isDownloadEvent e)) = true) ∧
    (fs1.pathExists (expanduser home md ++ ".zip") = false →
      ((∀ entry, List.find? (fun en => en.1 == basename (expanduser home md)) R =
            some entry →
          Event.downloadAttempt entry.2.2 (expanduser home md ++ ".zip") ∈
            (get_model_file R N home md fs0).trace) ∧
        (List.find? (fun en => en.1 == basename (expanduser home md)) R = none →
          (get_model_file R N home md fs0).trace = []))) := by
  constructor
  · intro hz
    rw [run_with_archive R N home md fs0 fs1 hmk hz]
    exact extractPhase_no_download _ _ _ _ _ rfl
  · intro hz
    unfold get_model_file
    dsimp only
    rw [hmk]
    dsimp only
    rw [if_neg (by rw [hz]; exact Bool.false_ne_true)]
    constructor
    · intro entry hfind
      rw [hfind]
      dsimp only
      cases N entry.2.2 with
      | ok d =>
        dsimp only
        exact extractPhase_trace_mem _ _ _ _ _ _ (List.mem_singleton.mpr rfl)
      | failClean => exact List.mem_singleton.mpr rfl
      | failPart d => exact List.mem_singleton.mpr rfl
    · intro hfind
      rw [hfind]

/-- C2 (counterexample): with the target directory already materially
present from a prior successful run and the archive absent, a further
call performs network activity: it issues a download attempt. -/
theorem idempotence_claim_cex :
    Event.downloadAttempt "u" "/d/m.zip" ∈
      (get_model_file [("m", ("v", "u"))]
        (fun _ => DownloadResult.ok (FileData.zipData [("m/a", "b")]))
        "/h" "/d/m" ⟨[("/d/m/a", FileData.raw "b")], ["/d", "/d/m"]⟩).trace := by
  decide

/-- C2 (witness): a run over a present (corrupt) archive has no
download event; a run with the archive absent and a registered base
name issues a download attempt even though the target directory already
exists. -/
theorem network_activity_characterization_wit :
    (get_model_file [] (fun _ => DownloadResult.failClean) "/h" "/d/m"
        ⟨[("/d/m.zip", FileData.raw "")], ["/d"]⟩).trace.all
      (fun e => !(isDownloadEvent e)) = true ∧
    Event.downloadAttempt "u" ("/d/m" ++ ".zip") ∈
      (get_model_file [("m", ("v", "u"))] (fun _ => DownloadResult.failClean) "/h" "/d/m"
        ⟨[], ["/d", "/d/m"]⟩).trace :=
  ⟨(network_activity_characterization [] (fun _ => DownloadResult.failClean) "/h" "/d/m"
      ⟨[("/d/m.zip", FileData.raw "")], ["/d"]⟩ ⟨[("/d/m.zip", FileData.raw "")], ["/d"]⟩
      (by decide)).1 (by decide),
    ((network_activity_characterization [("m", ("v", "u"))]
        (fun _ => DownloadResult.failClean) "/h" "/d/m" ⟨[], ["/d", "/d/m"]⟩
        ⟨[], ["/d", "/d/m"]⟩ (by decide)).2 (by decide)).1
      ("m", ("v", "u")) (by decide)⟩

/-- C3: for a target whose base name is not a registry key and with no
archive at the target .zip path, get_model_file raises the
model-not-available error (NotImplementedError), attempts no download
(empty event trace), and the final filesystem is the input one with only
the parent directory created (file entries untouched). -/
theorem unknown_model_fails_fast (R : List (String × (String × String)))
    (N : String → DownloadResult) (home md : String) (fs0 fs1 : FS)
    (hmk : fs0.makedirs (dirname (expanduser home md)) = some fs1)
    (hz : fs0.pathExists (expanduser home md ++ ".zip") = false)
    (hreg : List.find? (fun en => en.1 == basename (expanduser home md)) R = none) :
    get_model_file R N home md fs0 =
      ⟨fs1, [], .err (.notImplementedError (basename (expanduser home md)))⟩ ∧
    fs1.files = fs0.files := by
  have hz1 : fs1.pathExists (expanduser home md ++ ".zip") = false := by
    rw [pathExists_makedirs_ne fs0 fs1 _ _ hmk (zip_ne_dirname _)]
    exact hz
  refine ⟨?_, (makedirs_inv _ _ _ hmk).2.1⟩
  unfold get_model_file
  dsimp only
  rw [hmk]
  dsimp only
  rw [if_neg (by rw [hz1]; exact Bool.false_ne_true), hreg]

/-- C3 (witness): an unregistered name with no archive present fails with
NotImplementedError and leaves only the (already existing) parent
directory. -/
theorem unknown_model_fails_fast_wit :
    get_model_file [] (fun _ => DownloadResult.failClean) "/h" "/d/m" ⟨[], ["/d"]⟩ =
      ⟨⟨[], ["/d"]⟩, [], .err (.notImplementedError "m")⟩ ∧
    FS.files ⟨[], ["/d"]⟩ = FS.files ⟨[], ["/d"]⟩ :=
  unknown_model_fails_fast [] (fun _ => DownloadResult.failClean) "/h" "/d/m"
    ⟨[], ["/d"]⟩ ⟨[], ["/d"]⟩ (by decide) (by decide) (by decide)

/-- C4: when a file is already present at the target .zip path the run is
independent of the registry and of the network (the registry lookup and
the download step are skipped), no download event occurs, and if that
file is raw bytes the zip reader rejects (an empty or corrupt archive),
the run fails with BadZipFile leaving the filesystem as probed. -/
theorem preexisting_archive_skips_download (R : List (String × (String × String)))
    (N : String → DownloadResult) (home md : String) (fs0 fs1 : FS)
    (hmk : fs0.makedirs (dirname (expanduser home md)) = some fs1)
    (hz : fs1.pathExists (expanduser home md ++ ".zip") = true) :
    (∀ (R2 : List (String × (String × String))) (N2 : String → DownloadResult),
      get_model_file R2 N2 home md fs0 = get_model_file R N home md fs0) ∧
    (get_model_file R N home md fs0).trace.all (fun e => !(isDownloadEvent e)) = true ∧
    (∀ b, fs1.readFile (expanduser home md ++ ".zip") = some (FileData.raw b) →
      get_model_file R N home md fs0 = ⟨fs1, [], .err .badZipFile⟩) := by
  refine ⟨?_, ?_, ?_⟩
  · intro R2 N2
    rw [run_with_archive R N home md fs0 fs1 hmk hz,
      run_with_archive R2 N2 home md fs0 fs1 hmk hz]
  · rw [run_with_archive R N home md fs0 fs1 hmk hz]
    exact extractPhase_no_download _ _ _ _ _ rfl
  · intro b hread
    rw [run_with_archive R N home md fs0 fs1 hmk hz]
    unfold extractPhase
    rw [hread]

/-- C4 (witness): a corrupt (empty) pre-existing archive gives the same
run under two different registries and networks, with no download event,
and fails with BadZipFile. -/
theorem preexisting_archive_skips_download_wit :
    (get_model_file [("m", ("v", "u2"))] (fun _ => DownloadResult.failClean) "/h" "/d/m"
        ⟨[("/d/m.zip", FileData.raw "")], ["/d"]⟩ =
      get_model_file [] (fun _ => DownloadResult.ok (FileData.raw "x")) "/h" "/d/m"
        ⟨[("/d/m.zip", FileData.raw "")], ["/d"]⟩) ∧
    get_model_file [] (fun _ => DownloadResult.ok (FileData.raw "x")) "/h" "/d/m"
        ⟨[("/d/m.zip", FileData.raw "")], ["/d"]⟩ =
      ⟨⟨[("/d/m.zip", FileData.raw "")], ["/d"]⟩, [], .err .badZipFile⟩ := by
  have h := preexisting_archive_skips_download []
    (fun _ => DownloadResult.ok (FileData.raw "x")) "/h" "/d/m"
    ⟨[("/d/m.zip", FileData.raw "")], ["/d"]⟩ ⟨[("/d/m.zip", FileData.raw "")], ["/d"]⟩
    (by decide) (by decide)
  exact ⟨h.1 [("m", ("v", "u2"))] (fun _ => DownloadResult.failClean),
    h.2.2 "" (by decide)⟩

/-- C1 (counterexample): after a first successful call that consumed a
pre-existing archive whose base name is not a registry key, the second
call does not trigger a fresh download: it raises NotImplementedError
with an empty event trace. -/
theorem always_redownload_claim_cex :
    (get_model_file [] (fun _ => DownloadResult.failClean) "/h" "/d/m"
        ⟨[("/d/m.zip", FileData.zipData [("m/x", "y")])], ["/d"]⟩).outcome = .ok "/d/m" ∧
    (get_model_file [] (fun _ => DownloadResult.failClean) "/h" "/d/m"
        (get_model_file [] (fun _ => DownloadResult.failClean) "/h" "/d/m"
          ⟨[("/d/m.zip", FileData.zipData [("m/x", "y")])], ["/d"]⟩).fs).outcome =
      .err (.notImplementedError "m") ∧
    (get_model_file [] (fun _ => DownloadResult.failClean) "/h" "/d/m"
        (get_model_file [] (fun _ => DownloadResult.failClean) "/h" "/d/m"
          ⟨[("/d/m.zip", FileData.zipData [("m/x", "y")])], ["/d"]⟩).fs).trace = [] := by
  decide

/-- C1 (amended): on a well-formed filesystem, after a successful call
the archive no longer exists, so a second call never takes the
archive-present shortcut; whenever the target's base name is a registry
key the second call issues a fresh download attempt, whatever the
network then does (when the name is not a registry key, which can only
arise from a first success via a pre-existing archive, the second call
instead fails with the model-not-available error). -/
theorem second_call_after_success_redownloads (R : List (String × (String × String)))
    (N N2 : String → DownloadResult) (home md r : String) (fs0 : FS)
    (entry : String × (String × String))
    (hwf : fs0.wf = true)
    (ho : (get_model_file R N home md fs0).outcome = .ok r)
    (hreg : List.find? (fun en => en.1 == basename (expanduser home md)) R = some entry) :
    (get_model_file R N home md fs0).fs.pathExists (expanduser home md ++ ".zip") = false ∧
    Event.downloadAttempt entry.2.2 (expanduser home md ++ ".zip") ∈
      (get_model_file R N2 home md (get_model_file R N home md fs0).fs).trace := by
  obtain ⟨hr, fs1, fsPre, es, hmk, hcase, hfs, -⟩ :=
    run_ok_inv R N home md r fs0 _ rfl ho
  have hdirs : (get_model_file R N home md fs0).fs.dirs = fs1.dirs := by
    rw [hfs, removeFile_dirs, extractAll_dirs]
    rcases hcase with ⟨hpre, -, -⟩ | ⟨d, -, hpre⟩
    · rw [hpre]
    · rw [hpre, writeFile_dirs]
  have hnofile : (get_model_file R N home md fs0).fs.isFile
      (expanduser home md ++ ".zip") = false := by
    rw [hfs, isFile_removeFile, if_pos rfl]
  have hzipdir1 : fs1.isDir (expanduser home md ++ ".zip") = false := by
    rcases hcase with ⟨hpre, hpe, hread⟩ | ⟨d, hpe, hpre⟩
    · have hfile1 : fs1.isFile (expanduser home md ++ ".zip") = true :=
        isFile_of_readFile _ _ _ hread
      have hfile0 : fs0.isFile (expanduser home md ++ ".zip") = true := by
        rw [← isFile_congr fs1 fs0 (makedirs_inv _ _ _ hmk).2.1]
        exact hfile1
      have hdir0 : fs0.isDir (expanduser home md ++ ".zip") = false :=
        wf_not_dir_of_isFile _ _ hwf hfile0
      rcases (makedirs_inv _ _ _ hmk).2.2.2 with hd | hd
      · unfold FS.isDir
        rw [hd]
        exact hdir0
      · unfold FS.isDir
        rw [hd, List.contains_cons]
        have h1 : ((expanduser home md ++ ".zip") ==
            dirname (expanduser home md)) = false := by
          simp only [beq_eq_false_iff_ne, ne_eq]
          exact zip_ne_dirname _
        rw [h1, Bool.false_or]
        exact hdir0
    · unfold FS.pathExists at hpe
      exact (Bool.or_eq_false_iff.mp hpe).2
  have hnoexist : (get_model_file R N home md fs0).fs.pathExists
      (expanduser home md ++ ".zip") = false := by
    unfold FS.pathExists
    rw [hnofile, Bool.false_or]
    unfold FS.isDir
    rw [hdirs]
    exact hzipdir1
  refine ⟨hnoexist, ?_⟩
  have hpar_ne : dirname (expanduser home md) ≠ "" := (makedirs_inv _ _ _ hmk).1
  have hpardir : (get_model_file R N home md fs0).fs.isDir
      (dirname (expanduser home md)) = true := by
    unfold FS.isDir
    rw [hdirs]
    exact (makedirs_inv _ _ _ hmk).2.2.1
  have hmk2 : (get_model_file R N home md fs0).fs.makedirs
      (dirname (expanduser home md)) = some (get_model_file R N home md fs0).fs :=
    makedirs_of_isDir _ _ hpar_ne hpardir
  revert hnoexist hmk2
  generalize (get_model_file R N home md fs0).fs = cfs
  intro hnoexist hmk2
  unfold get_model_file
  dsimp only
  rw [hmk2]
  dsimp only
  rw [if_neg (by rw [hnoexist]; exact Bool.false_ne_true), hreg]
  dsimp only
  cases N2 entry.2.2 with
  | ok d =>
    dsimp only
    exact extractPhase_trace_mem _ _ _ _ _ _ (List.mem_singleton.mpr rfl)
  | failClean => exact List.mem_singleton.mpr rfl
  | failPart d => exact List.mem_singleton.mpr rfl

/-- C1 (witness): after a successful download-and-extract run for a
registered name on a well-formed filesystem, the archive is gone and the
second call issues a fresh download attempt. -/
theorem second_call_after_success_redownloads_wit :
    (get_model_file [("m", ("v", "u"))]
        (fun _ => DownloadResult.ok (FileData.zipData [("m/a", "b")]))
        "/h" "/d/m" ⟨[], ["/d"]⟩).fs.pathExists ("/d/m" ++ ".zip") = false ∧
    Event.downloadAttempt "u" ("/d/m" ++ ".zip") ∈
      (get_model_file [("m", ("v", "u"))]
        (fun _ => DownloadResult.ok (FileData.zipData [("m/a", "b")]))
        "/h" "/d/m"
        (get_model_file [("m", ("v", "u"))]
          (fun _ => DownloadResult.ok (FileData.zipData [("m/a", "b")]))
          "/h" "/d/m" ⟨[], ["/d"]⟩).fs).trace :=
  second_call_after_success_redownloads [("m", ("v", "u"))]
    (fun _ => DownloadResult.ok (FileData.zipData [("m/a", "b")]))
    (fun _ => DownloadResult.ok (FileData.zipData [("m/a", "b")]))
    "/h" "/d/m" "/d/m" ⟨[], ["/d"]⟩ ("m", ("v", "u"))
    (by decide) (by decide) (by decide)

/-- C5: every successful run returns the home-expanded target path,
leaves no file at the target .zip path, and has extracted the entries of
the consumed archive into the parent directory of the target: each entry
now exists as a file at the join of the parent directory and the entry
name (unless that join is the archive path itself, which is deleted
last). -/
theorem success_extracts_and_deletes_archive (R : List (String × (String × String)))
    (N : String → DownloadResult) (home md r : String) (fs0 : FS)
    (ho : (get_model_file R N home md fs0).outcome = .ok r) :
    r = expanduser home md ∧
    (get_model_file R N home md fs0).fs.isFile (expanduser home md ++ ".zip") = false ∧
    ∃ es, Event.extracted (dirname (expanduser home md)) es ∈
        (get_model_file R N home md fs0).trace ∧
      ∀ nc ∈ es, joinPath (dirname (expanduser home md)) nc.1 =
          expanduser home md ++ ".zip" ∨
        (get_model_file R N home md fs0).fs.isFile
          (joinPath (dirname (expanduser home md)) nc.1) = true := by
  obtain ⟨hr, fs1, fsPre, es, hmk, hcase, hfs, hmem⟩ :=
    run_ok_inv R N home md r fs0 _ rfl ho
  refine ⟨hr, ?_, es, hmem, ?_⟩
  · rw [hfs, isFile_removeFile, if_pos rfl]
  · intro nc hnc
    by_cases hcol : joinPath (dirname (expanduser home md)) nc.1 =
        expanduser home md ++ ".zip"
    · exact Or.inl hcol
    · right
      rw [hfs, isFile_removeFile, if_neg hcol]
      exact extractAll_isFile_mem _ _ _ _ nc.2 (by rw [Prod.mk.eta]; exact hnc)

/-- C5 (witness): a concrete successful run returns the expanded path
and deletes the archive. -/
theorem success_extracts_and_deletes_archive_wit :
    "/d/m" = expanduser "/h" "/d/m" ∧
    (get_model_file [("m", ("v", "u"))]
        (fun _ => DownloadResult.ok (FileData.zipData [("m/a", "b")]))
        "/h" "/d/m" ⟨[], ["/d"]⟩).fs.isFile (expanduser "/h" "/d/m" ++ ".zip") = false :=
  ⟨(success_extracts_and_deletes_archive [("m", ("v", "u"))]
      (fun _ => DownloadResult.ok (FileData.zipData [("m/a", "b")]))
      "/h" "/d/m" "/d/m" ⟨[], ["/d"]⟩ (by decide)).1,
    (success_extracts_and_deletes_archive [("m", ("v", "u"))]
      (fun _ => DownloadResult.ok (FileData.zipData [("m/a", "b")]))
      "/h" "/d/m" "/d/m" ⟨[], ["/d"]⟩ (by decide)).2.1⟩

/-- C7: failures propagate without cleanup: on every failing run no file
of the input filesystem has been deleted (a pre-existing archive
survives every failure path); a run failing at the archive opening
(BadZipFile) or midway through extraction (after some entries were
already written into the parent directory) leaves the archive file at
the target .zip path; and a run failing at the download step either
left the file entries unchanged or left the (possibly partially
written) downloaded archive at the target .zip path, not deleted.
Deletion of the archive happens only after extraction completes
successfully. -/
theorem failure_preserves_archive (R : List (String × (String × String)))
    (N : String → DownloadResult) (home md : String) (fs0 : FS) (e : ResolverError)
    (ho : (get_model_file R N home md fs0).outcome = .err e) :
    (∀ p, fs0.isFile p = true → (get_model_file R N home md fs0).fs.isFile p = true) ∧
    ((e = .badZipFile ∨ e = .extractionError) →
      (get_model_file R N home md fs0).fs.isFile (expanduser home md ++ ".zip") = true) ∧
    (e = .downloadError →
      ((get_model_file R N home md fs0).fs.files = fs0.files ∨
        ∃ d, (get_model_file R N home md fs0).fs.files =
          (fs0.writeFile (expanduser home md ++ ".zip") d).files)) :=
  run_err_inv R N home md fs0 _ e rfl ho

/-- C7 (witness): a run over an archive that opens but fails midway
through extraction keeps the archive file on disk. -/
theorem failure_preserves_archive_wit :
    (get_model_file [] (fun _ => DownloadResult.failClean) "/h" "/d/m"
        ⟨[("/d/m.zip", FileData.zipTrunc [("m/a", "b")])], ["/d"]⟩).fs.isFile
      (expanduser "/h" "/d/m" ++ ".zip") = true :=
  (failure_preserves_archive [] (fun _ => DownloadResult.failClean) "/h" "/d/m"
      ⟨[("/d/m.zip", FileData.zipTrunc [("m/a", "b")])], ["/d"]⟩ .extractionError
      (by decide)).2.1 (Or.inr rfl)

/-- C6: get_model_file operates on the home-expanded input path: a run
on the raw path equals a run on the expanded path (whenever expansion
has reached a fixed point, i.e. no tilde remains in the expanded path),
the value returned by a successful run is the expanded path, and with an
absolute home directory a leading tilde component expands to an absolute
path. -/
theorem get_model_file_expands_home (R : List (String × (String × String)))
    (N : String → DownloadResult) (home md : String) (fs0 : FS) :
    (hasTilde (expanduser home md) = false →
      get_model_file R N home md fs0 =
        get_model_file R N home (expanduser home md) fs0) ∧
    (∀ r, (get_model_file R N home md fs0).outcome = .ok r →
      r = expanduser home md) ∧
    (isAbs home = true → (md.toList.take 2 = ['~', '/'] ∨ md.toList = ['~']) →
      isAbs (expanduser home md) = true) := by
  refine ⟨?_, ?_, fun hh hp => isAbs_expanduser home md hh hp⟩
  · intro h
    unfold get_model_file
    rw [expanduser_of_no_tilde home _ h]
  · intro r ho
    exact (run_ok_inv R N home md r fs0 _ rfl ho).1

/-- C6 (witness): a run on a tilde path equals the run on its expansion,
and the expansion of a tilde path under an absolute home is absolute. -/
theorem get_model_file_expands_home_wit :
    get_model_file [] (fun _ => DownloadResult.failClean) "/h" "~/m" ⟨[], ["/h"]⟩ =
      get_model_file [] (fun _ => DownloadResult.failClean) "/h"
        (expanduser "/h" "~/m") ⟨[], ["/h"]⟩ ∧
    isAbs (expanduser "/h" "~/m") = true :=
  ⟨(get_model_file_expands_home [] (fun _ => DownloadResult.failClean) "/h" "~/m"
      ⟨[], ["/h"]⟩).1 (by decide),
    (get_model_file_expands_home [] (fun _ => DownloadResult.failClean) "/h" "~/m"
      ⟨[], ["/h"]⟩).2.2 (by decide) (by decide)⟩

/-- C8: data_dir returns the CNOCR_HOME override when that environment
variable is set, and otherwise the platform-specific default: the cnstd
directory under APPDATA on Windows, else the .cnstd dotfile directory
under the expanded home directory. -/
theorem data_dir_env_override (env : Env) :
    (∀ v, env.cnocrHome = some v → data_dir env = v) ∧
    (env.cnocrHome = none →
      data_dir env = (if env.system = "Windows" then ntJoin env.appdata "cnstd"
        else joinPath (expanduser env.home "~") ".cnstd")) := by
  constructor
  · intro v hv
    unfold data_dir
    rw [hv]
  · intro hn
    unfold data_dir
    rw [hn]
    rfl

/-- C8 (witness): a set override is returned as is; an unset override
gives the non-Windows default under the home directory. -/
theorem data_dir_env_override_wit :
    data_dir ⟨"Linux", "", "/home/u", some "/o"⟩ = "/o" ∧
    data_dir ⟨"Linux", "", "/home/u", none⟩ =
      (if (Env.system ⟨"Linux", "", "/home/u", none⟩) = "Windows"
       then ntJoin (Env.appdata ⟨"Linux", "", "/home/u", none⟩) "cnstd"
       else joinPath (expanduser (Env.home ⟨"Linux", "", "/home/u", none⟩) "~") ".cnstd") :=
  ⟨(data_dir_env_override _).1 "/o" rfl, (data_dir_env_override _).2 rfl⟩

/-- C9: read_charset returns an alphabet of length one more than the
number of file lines, whose entry 0 is the reserved None separator,
whose entry i+1 is line i with its trailing newline stripped except that
the first stripped line equal to the space marker becomes a single space
character, together with an inverse dict mapping each element of the
alphabet to its largest index there. -/
theorem read_charset_spec (content : String) :
    (read_charset content).1.length = (pythonLines content).length + 1 ∧
    (read_charset content).1[0]? = some none ∧
    (∀ i, i < (pythonLines content).length →
      (read_charset content).1[i + 1]? =
        (if firstIdxOfStr "<space>" (strippedLines content) = some i
         then some (some " ")
         else ((strippedLines content)[i]?).map some)) ∧
    (∀ k, dictLookup (read_charset content).2 k =
      lastIdxOf k (read_charset content).1) := by
  unfold read_charset
  dsimp only
  rw [replaceFirstSpace_cons_none]
  refine ⟨?_, by simp, ?_, ?_⟩
  · simp [length_replaceFirstSpace, strippedLines]
  · intro i hi
    rw [List.getElem?_cons_succ]
    exact get?_replaceFirstSpace_map _ i
  · intro k
    exact dictLookup_buildDict _ k

/-- C9 (witness): on a concrete two-line charset file whose first line
is the space marker, entry 1 of the alphabet is the space character. -/
theorem read_charset_spec_wit :
    (read_charset "<space>\nb").1[0 + 1]? =
      (if firstIdxOfStr "<space>" (strippedLines "<space>\nb") = some 0
       then some (some " ")
       else ((strippedLines "<space>\nb")[0]?).map some) :=
  (read_charset_spec "<space>\nb").2.2.1 0 (by decide)

/-- C10: check_context is a total Boolean predicate that holds exactly
on: a string whose lowercase form is gpu or cpu, a non-empty list whose
every element is an mx.Context instance, or a single mx.Context
instance; in particular it is false on the empty list and on a value of
any other type. -/
theorem check_context_spec (v : PyVal) :
    check_context v = true ↔
      ((∃ s, v = PyVal.str s ∧ (pyLower s = "gpu" ∨ pyLower s = "cpu")) ∨
        (∃ l, v = PyVal.list l ∧ l ≠ [] ∧ ∀ x ∈ l, x = PyVal.ctx) ∨
        v = PyVal.ctx) := by
  cases v with
  | str s => simp [check_context]
  | list l =>
    cases l with
    | nil => simp [check_context]
    | cons a t => simp [check_context, List.all_eq_true, isContextInstance_eq_true]
  | ctx => simp [check_context]
  | other => simp [check_context]
